import Mathlib

/-!
Shallow embedding of the pygerrit2 REST client (pygerrit2/rest/__init__.py and
pygerrit2/rest/model/__init__.py).

Python values appearing in request-option dictionaries, JSON structures and
review objects are embedded as the inductive `PyVal`; Python dictionaries are
embedded as insertion-ordered association lists with string keys, matching
the observable behaviour of `dict` for the keys used by this library.
Mutation in the source is embedded as explicit state passing.
-/

set_option autoImplicit false

namespace Pygerrit2

/-- Embedding of the Python values this library stores in dictionaries:
nested dicts, lists, strings, ints, booleans, `None`, and opaque non-JSON
objects such as authentication handles (constructor `obj`). -/
inductive PyVal where
  | dict : List (String × PyVal) → PyVal
  | list : List PyVal → PyVal
  | str : String → PyVal
  | int : Int → PyVal
  | bool : Bool → PyVal
  | none : PyVal
  | obj : String → PyVal

/-- A Python `dict` with string keys: an insertion-ordered association list. -/
abbrev PyDict := List (String × PyVal)

/-- Embedding of `key in d` / `d[key]` : first binding of `key`, if any. -/
def alookup {α : Type} : List (String × α) → String → Option α
  | [], _ => Option.none
  | (k, v) :: rest, key => if k = key then some v else alookup rest key

/-- Embedding of `d[key] = val` : replace the first binding of `key` in place, else append
(Python dict assignment keeps the original key position). -/
def dset {α : Type} : List (String × α) → String → α → List (String × α)
  | [], key, val => [(key, val)]
  | (k, v) :: rest, key, val =>
      if k = key then (k, val) :: rest else (k, v) :: dset rest key val

/-- Embedding of `d.pop(key)` (ignoring the returned value): remove the first binding. -/
def aeraseKey {α : Type} : List (String × α) → String → List (String × α)
  | [], _ => []
  | (k, v) :: rest, key => if k = key then rest else (k, v) :: aeraseKey rest key

/-- Embedding of `d.update(other)` : shallow update, each binding of `other` assigned into
`d` in iteration order. -/
def pyUpdate {α : Type} (d other : List (String × α)) : List (String × α) :=
  other.foldl (fun acc kv => dset acc kv.1 kv.2) d

/-- Python truthiness for the embedded values. -/
def pyTruthy : PyVal → Bool
  | PyVal.dict d => !d.isEmpty
  | PyVal.list l => !l.isEmpty
  | PyVal.str s => !(s = "")
  | PyVal.int n => !(n = 0)
  | PyVal.bool b => b
  | PyVal.none => false
  | PyVal.obj _ => true

/-- Embedding of `key in result and isinstance(result[key], dict)`: the nested dict stored
at `k`, if any. -/
def dictAt (res : PyDict) (k : String) : Option PyDict :=
  match alookup res k with
  | some (PyVal.dict d1) => some d1
  | _ => Option.none

/-- Embedding of `_merge_dict(result, overrides)`: for each key of `overrides`, if both
sides hold a dict at that key, merge recursively, else assign the override
value.  The Python function mutates and returns `result`; the embedding
returns the final value. -/
def mergeDict : PyDict → PyDict → PyDict
  | res, [] => res
  | res, (k, PyVal.dict d2) :: rest =>
      match dictAt res k with
      | some d1 => mergeDict (dset res k (PyVal.dict (mergeDict d1 d2))) rest
      | Option.none => mergeDict (dset res k (PyVal.dict d2)) rest
  | res, (k, v) :: rest => mergeDict (dset res k v) rest
  termination_by _res ov => sizeOf ov
  decreasing_by
    all_goals simp_wf
    all_goals omega

/-- The per-key result of one `_merge_dict` step: recursive merge when both
sides hold a dict, otherwise the override value. -/
def mergeVal (old : Option PyVal) : PyVal → PyVal
  | PyVal.dict d2 =>
      match old with
      | some (PyVal.dict d1) => PyVal.dict (mergeDict d1 d2)
      | _ => PyVal.dict d2
  | v => v

/-- Python string whitespace (the characters `str.strip` removes). -/
def pyIsSpace (c : Char) : Bool :=
  c == ' ' || c == '\t' || c == '\n' || c == '\r' || c == Char.ofNat 11 || c == Char.ofNat 12

/-- Embedding of `s.lstrip()` on a character list. -/
def lstripL (l : List Char) : List Char := l.dropWhile pyIsSpace

/-- Embedding of `s.rstrip()` on a character list. -/
def rstripL (l : List Char) : List Char := (l.reverse.dropWhile pyIsSpace).reverse

/-- Embedding of `s.strip()` : strip whitespace from both ends. -/
def pyStrip (s : String) : String := ⟨lstripL (rstripL s.data)⟩

/-- Embedding of `s.startswith(p)`. -/
def pyStartsWith (s p : String) : Bool := p.data.isPrefixOf s.data

/-- Embedding of `s.endswith(p)`. -/
def pyEndsWith (s p : String) : Bool := p.data.reverse.isPrefixOf s.data.reverse

/-- Embedding of `s[n:]`. -/
def pyDrop (s : String) (n : Nat) : String := ⟨s.data.drop n⟩

/-- Embedding of `s[:-n]` (for `n ≤ len(s)`). -/
def pyDropRight (s : String) (n : Nat) : String := ⟨s.data.take (s.data.length - n)⟩

/-- Embedding of `url.rstrip` with the slash character. -/
def pyRstripSlash (s : String) : String :=
  ⟨(s.data.reverse.dropWhile (fun c => c == '/')).reverse⟩

/-- The module constant holding the 5-character anti-XSSI magic sequence:
right parenthesis, right bracket, right brace, single quote, newline (the
last three written as character escapes). -/
def GERRIT_MAGIC_JSON : String := ")]\x7d\x27\n"

/-- Embedding of `GERRIT_AUTH_SUFFIX = "/a"`. -/
def GERRIT_AUTH_SUFFIX : String := "/a"

/-- An HTTP response as `_decode_response` sees it: body text (the source
byte-decode step using `response.encoding` is absorbed into modelling the
body as text), status code, and the `content-type` header (defaulting to
`""` when absent). -/
structure HttpResponse where
  content : String
  status : Nat
  contentType : String

/-- The errors `_decode_response` can raise: `requests.HTTPError` from
`raise_for_status()` (for 4xx/5xx status codes), or `ValueError` re-raised
from `json.loads`. -/
inductive DecodeErr where
  | httpError : Nat → DecodeErr
  | valueError : DecodeErr
  deriving DecidableEq

/-- A successfully decoded response body: raw text for non-JSON
content-types, or a parsed JSON structure. -/
inductive Decoded (J : Type) where
  | text : String → Decoded J
  | json : J → Decoded J

/-- The main content type, `content_type.split` at semicolons, item zero:
the characters before the first semicolon (the whole string when there is
none). -/
def ctMain (ct : String) : String := ⟨ct.data.takeWhile (fun c => !(c == ';'))⟩

/-- Embedding of `_decode_response(response)`, parameterized by the JSON parser
(`json.loads` is a library function; it is taken as an argument returning
`none` where the Python function raises `ValueError`).  Steps, in source
order: strip the body, raise for an HTTP error status, return raw text for
non-JSON content-types, strip the magic prefix if present, parse. -/
def decodeResponse {J : Type} (parse : String → Option J) (r : HttpResponse) :
    Except DecodeErr (Decoded J) :=
  let content := pyStrip r.content
  if 400 ≤ r.status ∧ r.status < 600 then
    Except.error (DecodeErr.httpError r.status)
  else if ctMain r.contentType ≠ "application/json" then
    Except.ok (Decoded.text content)
  else
    let content2 :=
      if pyStartsWith content GERRIT_MAGIC_JSON then
        pyDrop content GERRIT_MAGIC_JSON.length
      else content
    match parse content2 with
    | some j => Except.ok (Decoded.json j)
    | Option.none => Except.error DecodeErr.valueError

/-- The URL normalization of `GerritRestAPI.__init__` (the `isinstance`
check on the auth handle is outside the embedding; `hasAuth` is the
truthiness of `auth`): strip trailing slashes, append the auth suffix when
authenticated / strip it when not, ensure a trailing slash. -/
def initUrl (url : String) (hasAuth : Bool) : String :=
  let u := pyRstripSlash url
  let u2 :=
    if hasAuth then
      if pyEndsWith u GERRIT_AUTH_SUFFIX then u else u ++ GERRIT_AUTH_SUFFIX
    else
      if pyEndsWith u GERRIT_AUTH_SUFFIX then pyDropRight u 2 else u
  if pyEndsWith u2 "/" then u2 else u2 ++ "/"

/-- The default headers installed by `GerritRestAPI.__init__`. -/
def defaultHeaders : PyDict :=
  [("Accept", PyVal.str "application/json"), ("Accept-Encoding", PyVal.str "gzip")]

/-- Embedding of `self.kwargs` : the client default request options. -/
def defaultKwargs (auth : PyVal) (verify : Bool) : PyDict :=
  [("auth", auth), ("verify", PyVal.bool verify),
   ("headers", PyVal.dict defaultHeaders)]

/-- The options `GerritRestAPI.get` passes to `session.get`:
`kwargs.update(self.kwargs.copy())` — the client defaults are copied *over*
the caller keyword options. -/
def getDispatch (auth : PyVal) (verify : Bool) (kwargs : PyDict) : PyDict :=
  pyUpdate kwargs (defaultKwargs auth verify)

/-- The Content-Type header dict injected for structured bodies. -/
def ctInject : PyDict :=
  [("headers", PyVal.dict [("Content-Type", PyVal.str "application/json;charset=UTF-8")])]

/-- Embedding of `("data" in kwargs and isinstance(kwargs["data"], dict)) or "json" in
kwargs` — the condition guarding the Content-Type injection in `put`/`post`. -/
def hasStructuredBody (kwargs : PyDict) : Bool :=
  (match alookup kwargs "data" with
   | some (PyVal.dict _) => true
   | _ => false)
  || (alookup kwargs "json").isSome

/-- Embedding of `"data" in kwargs or "json" in kwargs` — the condition in `delete`. -/
def hasBodyKey (kwargs : PyDict) : Bool :=
  (alookup kwargs "data").isSome || (alookup kwargs "json").isSome

/-- The options `GerritRestAPI.put` passes to `session.put`: start from `{}`,
merge in the Content-Type injection when the body is structured, merge in
the client defaults, then merge in the caller options. -/
def putDispatch (auth : PyVal) (verify : Bool) (kwargs : PyDict) : PyDict :=
  let args : PyDict := []
  let args := if hasStructuredBody kwargs then mergeDict args ctInject else args
  let args := mergeDict args (defaultKwargs auth verify)
  mergeDict args kwargs

/-- The options `GerritRestAPI.post` passes to `session.post` (same pipeline
as `put`). -/
def postDispatch (auth : PyVal) (verify : Bool) (kwargs : PyDict) : PyDict :=
  let args : PyDict := []
  let args := if hasStructuredBody kwargs then mergeDict args ctInject else args
  let args := mergeDict args (defaultKwargs auth verify)
  mergeDict args kwargs

/-- The options `GerritRestAPI.delete` passes to `session.delete` (its guard
tests only key presence, not that `data` is a dict). -/
def deleteDispatch (auth : PyVal) (verify : Bool) (kwargs : PyDict) : PyDict :=
  let args : PyDict := []
  let args := if hasBodyKey kwargs then mergeDict args ctInject else args
  let args := mergeDict args (defaultKwargs auth verify)
  mergeDict args kwargs

/-- The state of a `GerritReview` object: cover message, label mapping,
comment mapping (file path → stored value, a list of comment dicts by
construction). -/
structure GerritReviewM where
  message : String
  labels : PyDict
  comments : PyDict

/-- The `self.labels` computation of `GerritReview.__init__`: a truthy
non-dict raises `ValueError("labels must be a dict.")`, a falsy value (or
the `None` default) gives `{}`. -/
def labelsField : Option PyVal → Except String PyDict
  | Option.none => Except.ok []
  | some lv =>
      if pyTruthy lv then
        match lv with
        | PyVal.dict d => Except.ok d
        | _ => Except.error "labels must be a dict."
      else Except.ok []

/-- One iteration of the `add_comments` loop after the message dict `msg`
has been built: the filename subscript access (a `KeyError` when absent; non-string
filenames, which would be exotic dict keys, are outside the embedding),
then append to the list of the file or insert a fresh singleton list. -/
def storeComment (r : GerritReviewM) (cd : PyDict) (msg : PyVal) :
    Except String GerritReviewM :=
  match alookup cd "filename" with
  | Option.none => Except.error "KeyError: filename"
  | some (PyVal.str fname) =>
      if r.comments.isEmpty then
        Except.ok { r with comments := dset r.comments fname (PyVal.list [msg]) }
      else
        match alookup r.comments fname with
        | some (PyVal.list l) =>
            Except.ok { r with comments := dset r.comments fname (PyVal.list (l ++ [msg])) }
        | some _ => Except.error "AttributeError: append"
        | Option.none =>
            Except.ok { r with comments := dset r.comments fname (PyVal.list [msg]) }
  | some _ => Except.error "unhashable filename key not modelled"

/-- One iteration of the `add_comments` loop.  The source condition, a
conjunction of the bare string literal "filename" with a test that
"message" is among the comment keys, evaluates in Python as just the
membership test for "message" (the "filename" literal is truthy), so only
`message` is tested; then a `range` comment, else a `line` comment, else
`continue`. -/
def addOneComment (r : GerritReviewM) (c : PyVal) : Except String GerritReviewM :=
  match c with
  | PyVal.dict cd =>
      match alookup cd "message" with
      | Option.none => Except.ok r
      | some msgv =>
          match alookup cd "range" with
          | some rv => storeComment r cd (PyVal.dict [("range", rv), ("message", msgv)])
          | Option.none =>
              match alookup cd "line" with
              | some lv => storeComment r cd (PyVal.dict [("line", lv), ("message", msgv)])
              | Option.none => Except.ok r
  | _ => Except.error "AttributeError: keys"

/-- Embedding of `GerritReview.add_comments(comments)` : the loop over the comment list. -/
def addComments (r : GerritReviewM) : List PyVal → Except String GerritReviewM
  | [] => Except.ok r
  | c :: rest =>
      match addOneComment r c with
      | Except.ok r' => addComments r' rest
      | Except.error e => Except.error e

/-- Embedding of `self.message = message if message else ""` (with `None` for an absent
argument). -/
def initMessage : Option String → String
  | some m => if m = "" then "" else m
  | Option.none => ""

/-- Embedding of `GerritReview.__init__(message, labels, comments)` : a truthy non-list
`comments` raises `ValueError("comments must be a list.")`; otherwise the
comment mapping starts empty and `add_comments` is run on the given list. -/
def gerritReviewInit (message : Option String) (labels : Option PyVal)
    (comments : Option PyVal) : Except String GerritReviewM :=
  match labelsField labels with
  | Except.error e => Except.error e
  | Except.ok ld =>
      match comments with
      | some cv =>
          if pyTruthy cv then
            match cv with
            | PyVal.list cl => addComments ⟨initMessage message, ld, []⟩ cl
            | _ => Except.error "comments must be a list."
          else Except.ok ⟨initMessage message, ld, []⟩
      | Option.none => Except.ok ⟨initMessage message, ld, []⟩

/-- Embedding of `GerritReview.set_message(message)`. -/
def setMessage (r : GerritReviewM) (m : String) : GerritReviewM :=
  { r with message := m }

/-- Embedding of `GerritReview.add_labels(labels)` : `self.labels.update(labels)`. -/
def addLabels (r : GerritReviewM) (ls : PyDict) : GerritReviewM :=
  { r with labels := pyUpdate r.labels ls }

/-- One lowercase hexadecimal digit. -/
def hexDigit (n : Nat) : Char :=
  if n < 10 then Char.ofNat (48 + n) else Char.ofNat (87 + n)

/-- Four lowercase hexadecimal digits, as in `\uXXXX` escapes. -/
def hex4 (n : Nat) : List Char :=
  [hexDigit (n / 4096 % 16), hexDigit (n / 256 % 16), hexDigit (n / 16 % 16), hexDigit (n % 16)]

/-- Embedding of `json.dumps` escaping of one character (default `ensure_ascii=True`). -/
def escChar (c : Char) : List Char :=
  if c = '"' then ['\\', '"']
  else if c = '\\' then ['\\', '\\']
  else if c = '\n' then ['\\', 'n']
  else if c = '\r' then ['\\', 'r']
  else if c = '\t' then ['\\', 't']
  else if c = Char.ofNat 8 then ['\\', 'b']
  else if c = Char.ofNat 12 then ['\\', 'f']
  else if c.toNat < 32 then '\\' :: 'u' :: hex4 c.toNat
  else if c.toNat < 127 then [c]
  else if c.toNat < 65536 then '\\' :: 'u' :: hex4 c.toNat
  else
    ('\\' :: 'u' :: hex4 (55296 + (c.toNat - 65536) / 1024))
      ++ ('\\' :: 'u' :: hex4 (56320 + (c.toNat - 65536) % 1024))

/-- A JSON string literal. -/
def dumpStrLit (s : String) : String :=
  ⟨'"' :: s.data.foldr (fun c acc => escChar c ++ acc) ['"']⟩

mutual

/-- Embedding of `json.dumps(v, sort_keys=True)` with the default separators: dict
entries are serialized, sorted by key, and joined. -/
def jsonDumpsVal : PyVal → String
  | PyVal.dict d =>
      "\x7b"
        ++ String.intercalate ", "
            ((List.mergeSort (jsonDumpsPairs d) (fun a b => a.1 ≤ b.1)).map
              (fun p => dumpStrLit p.1 ++ ": " ++ p.2))
        ++ "\x7d"
  | PyVal.list l => "[" ++ String.intercalate ", " (jsonDumpsList l) ++ "]"
  | PyVal.str s => dumpStrLit s
  | PyVal.int n => toString n
  | PyVal.bool b => if b then "true" else "false"
  | PyVal.none => "null"
  | PyVal.obj o => "<unserializable " ++ o ++ ">"

/-- Serialize each dict entry value, keeping its key. -/
def jsonDumpsPairs : List (String × PyVal) → List (String × String)
  | [] => []
  | (k, v) :: rest => (k, jsonDumpsVal v) :: jsonDumpsPairs rest

/-- Serialize each list element. -/
def jsonDumpsList : List PyVal → List String
  | [] => []
  | v :: rest => jsonDumpsVal v :: jsonDumpsList rest

end

/-- The `review_input` dict built by `GerritReview.__str__`: `message`,
`labels`, `comments`, each included only when truthy. -/
def reviewInputDict (r : GerritReviewM) : PyDict :=
  let ri : PyDict := []
  let ri := if r.message = "" then ri else dset ri "message" (PyVal.str r.message)
  let ri := if r.labels.isEmpty then ri else dset ri "labels" (PyVal.dict r.labels)
  if r.comments.isEmpty then ri else dset ri "comments" (PyVal.dict r.comments)

/-- Embedding of `GerritReview.__str__()` : `json.dumps(review_input, sort_keys=True)`.
(The model module never imports `json`, so in the source this call actually
raises `NameError`; this definition embeds the serialization the call names.) -/
def gerritReviewStr (r : GerritReviewM) : String :=
  jsonDumpsVal (PyVal.dict (reviewInputDict r))

/-- The observable effect of one `GerritRestAPI.review` call: the endpoint
given to `post`, the keyword options passed, and the value returned to the
caller (`None`: the function has no `return` statement). -/
structure ReviewCall where
  endpoint : String
  postKwargs : PyDict
  result : PyVal

/-- Embedding of `GerritRestAPI.review(change_id, revision, review)` : format the
endpoint, post `data=str(review)`, discard the decoded response. -/
def reviewDispatch (change_id revision : String) (r : GerritReviewM) : ReviewCall :=
  { endpoint := "changes/" ++ change_id ++ "/revisions/" ++ revision ++ "/review"
    postKwargs := [("data", PyVal.str (gerritReviewStr r))]
    result := PyVal.none }

/-- A keyword value accepted by `GerritClient.query_changes`: filter values
are strings, the `options` value is a list of strings. -/
inductive QVal where
  | s : String → QVal
  | ls : List String → QVal

/-- The default result-detail options of `query_changes`. -/
def defaultOptions : List String :=
  ["CURRENT_REVISION", "CURRENT_COMMIT", "CURRENT_FILES"]

/-- The query parts, one formatted "k:v" per truthy filter value with every
space in the value replaced by a plus sign, in iteration order.  A truthy
list-valued filter would raise
`AttributeError` (`list` has no `replace`), embedded as `none`; a falsy
(empty) value is skipped by the `if v` guard. -/
def queryParts : List (String × QVal) → Option (List String)
  | [] => some []
  | (k, QVal.s v) :: rest =>
      if v = "" then queryParts rest
      else (queryParts rest).map (fun l => (k ++ ":" ++ v.replace " " "+") :: l)
  | (_, QVal.ls l) :: rest =>
      if l.isEmpty then queryParts rest else Option.none

/-- A `GerritChange` wrapper: `__init__` stores the client back-reference
(dropped here) and copies the decoded JSON object into `__dict__`. -/
structure GerritChangeM where
  data : PyDict

/-- Embedding of `GerritChange(self, **c)`. -/
def mkGerritChange (c : PyDict) : GerritChangeM := ⟨c⟩

/-- Embedding of `GerritClient.query_changes(**kwargs)`, parameterized by `urlencode`
(`encq`, a library function) and by the decoded result of the single GET the
method issues (`getRes`, a function of the endpoint): choose the options
(popping a caller-supplied `options` key out of the filters), build the
space-joined query string, issue one GET, wrap each returned object. -/
def queryChanges (encq : List (String × QVal) → String)
    (getRes : String → List PyDict) (kwargs : List (String × QVal)) :
    Option (List GerritChangeM) :=
  let options : QVal := match alookup kwargs "options" with
    | Option.none => QVal.ls defaultOptions
    | some v => v
  let filters : List (String × QVal) := match alookup kwargs "options" with
    | Option.none => kwargs
    | some _ => aeraseKey kwargs "options"
  match queryParts filters with
  | Option.none => Option.none
  | some parts =>
      let query := String.intercalate " " parts
      some (((getRes ("/changes/?" ++ encq [("o", options), ("q", QVal.s query)]))).map
        mkGerritChange)

/-- The headers property claimed for structured-body dispatches: the
dispatched options hold a header dict carrying the injected Content-Type
and the two client default headers. -/
def dispatchHeadersOk (d : PyDict) : Prop :=
  ∃ hd, alookup d "headers" = some (PyVal.dict hd)
    ∧ alookup hd "Content-Type" = some (PyVal.str "application/json;charset=UTF-8")
    ∧ alookup hd "Accept" = some (PyVal.str "application/json")
    ∧ alookup hd "Accept-Encoding" = some (PyVal.str "gzip")

/-- The comment-mapping invariant of `GerritReview`: every stored value is a
list (so `append` in `add_comments` is always legal). -/
def commentsWF (cm : PyDict) : Prop :=
  ∀ k v, alookup cm k = some v → ∃ l, v = PyVal.list l

/-- The `msg` dict one `add_comments` iteration builds from a comment dict,
when the iteration stores anything: a `range` comment takes priority over a
`line` comment; with neither, nothing is stored. -/
def builtMsg (cd : PyDict) : Option PyVal :=
  match alookup cd "message" with
  | Option.none => Option.none
  | some msgv =>
      match alookup cd "range" with
      | some rv => some (PyVal.dict [("range", rv), ("message", msgv)])
      | Option.none =>
          match alookup cd "line" with
          | some lv => some (PyVal.dict [("line", lv), ("message", msgv)])
          | Option.none => Option.none

/-- The query parts of `query_changes` written as a comprehension over the
filter items: `k:v` with spaces replaced by `+`, keeping only truthy
string values. -/
def strFilters (kws : List (String × QVal)) : List String :=
  kws.filterMap (fun kv =>
    match kv.2 with
    | QVal.s x => if x = "" then Option.none else some (kv.1 ++ ":" ++ x.replace " " "+")
    | QVal.ls _ => Option.none)

theorem alookup_dset_self {α : Type} (d : List (String × α)) (k : String) (v : α) :
    alookup (dset d k v) k = some v := by
  induction d with
  | nil => simp [dset, alookup]
  | cons kv rest ih =>
      by_cases h : kv.1 = k
      · cases kv; simp_all [dset, alookup]
      · cases kv; simp_all [dset, alookup]

theorem alookup_dset_ne {α : Type} (d : List (String × α)) (k k' : String) (v : α)
    (h : k' ≠ k) : alookup (dset d k v) k' = alookup d k' := by
  have h' : ¬ k = k' := fun he => h he.symm
  induction d with
  | nil => simp [dset, alookup, h']
  | cons kv rest ih =>
      cases kv with
      | mk k0 v0 =>
          by_cases hk : k0 = k
          · subst hk; simp [dset, alookup, h']
          · simp [dset, alookup, hk, ih]

theorem alookup_eq_none_iff {α : Type} (d : List (String × α)) (k : String) :
    alookup d k = Option.none ↔ k ∉ d.map Prod.fst := by
  induction d with
  | nil => simp [alookup]
  | cons kv rest ih =>
      cases kv with
      | mk k0 v0 =>
          by_cases h : k0 = k <;> simp_all [alookup, eq_comm]

theorem alookup_pyUpdate_of_none {α : Type} (d other : List (String × α)) (k : String)
    (h : alookup other k = Option.none) :
    alookup (pyUpdate d other) k = alookup d k := by
  induction other generalizing d with
  | nil => simp [pyUpdate]
  | cons kv rest ih =>
      cases kv with
      | mk k0 v0 =>
          have hne : k0 ≠ k := by
            intro he; simp [alookup, he] at h
          have hrest : alookup rest k = Option.none := by
            simpa [alookup, hne] using h
          have : pyUpdate d ((k0, v0) :: rest) = pyUpdate (dset d k0 v0) rest := rfl
          rw [this, ih _ hrest, alookup_dset_ne]
          intro he; exact hne he.symm

theorem alookup_pyUpdate_of_some {α : Type} (d other : List (String × α)) (k : String)
    (v : α) (hnd : (other.map Prod.fst).Nodup) (h : alookup other k = some v) :
    alookup (pyUpdate d other) k = some v := by
  induction other generalizing d with
  | nil => simp [alookup] at h
  | cons kv rest ih =>
      cases kv with
      | mk k0 v0 =>
          have hstep : pyUpdate d ((k0, v0) :: rest) = pyUpdate (dset d k0 v0) rest := rfl
          by_cases hk : k0 = k
          · subst hk
            have hv : v0 = v := by simpa [alookup] using h
            subst hv
            have hnd' : k0 ∉ rest.map Prod.fst ∧ (rest.map Prod.fst).Nodup := by
              rw [List.map_cons] at hnd; exact List.nodup_cons.mp hnd
            have hrest : alookup rest k0 = Option.none :=
              (alookup_eq_none_iff rest k0).mpr hnd'.1
            rw [hstep, alookup_pyUpdate_of_none _ _ _ hrest, alookup_dset_self]
          · have hnd' : k0 ∉ rest.map Prod.fst ∧ (rest.map Prod.fst).Nodup := by
              rw [List.map_cons] at hnd; exact List.nodup_cons.mp hnd
            have hrest : alookup rest k = some v := by
              simpa [alookup, hk] using h
            rw [hstep, ih (dset d k0 v0) hnd'.2 hrest]

theorem mergeDict_nil (res : PyDict) : mergeDict res [] = res := by
  simp [mergeDict]

theorem mergeDict_cons (res : PyDict) (k : String) (v : PyVal) (rest : PyDict) :
    mergeDict res ((k, v) :: rest)
      = mergeDict (dset res k (mergeVal (alookup res k) v)) rest := by
  cases v <;> simp only [mergeDict, mergeVal, dictAt]
  cases h : alookup res k with
  | none => simp
  | some w => cases w <;> simp

theorem alookup_mergeDict_of_none (res ov : PyDict) (k : String)
    (h : alookup ov k = Option.none) :
    alookup (mergeDict res ov) k = alookup res k := by
  induction ov generalizing res with
  | nil => simp [mergeDict_nil]
  | cons kv rest ih =>
      cases kv with
      | mk k0 v0 =>
          have hne : k0 ≠ k := by
            intro he; simp [alookup, he] at h
          have hrest : alookup rest k = Option.none := by
            simpa [alookup, hne] using h
          rw [mergeDict_cons, ih _ hrest, alookup_dset_ne]
          intro he; exact hne he.symm

theorem alookup_mergeDict_of_some (res ov : PyDict) (k : String) (v : PyVal)
    (hnd : (ov.map Prod.fst).Nodup) (h : alookup ov k = some v) :
    alookup (mergeDict res ov) k = some (mergeVal (alookup res k) v) := by
  induction ov generalizing res with
  | nil => simp [alookup] at h
  | cons kv rest ih =>
      cases kv with
      | mk k0 v0 =>
          by_cases hk : k0 = k
          · subst hk
            have hv : v0 = v := by simpa [alookup] using h
            subst hv
            have hnd' : k0 ∉ rest.map Prod.fst ∧ (rest.map Prod.fst).Nodup := by
              rw [List.map_cons] at hnd; exact List.nodup_cons.mp hnd
            have hrest : alookup rest k0 = Option.none :=
              (alookup_eq_none_iff rest k0).mpr hnd'.1
            rw [mergeDict_cons, alookup_mergeDict_of_none _ _ _ hrest, alookup_dset_self]
          · have hnd' : k0 ∉ rest.map Prod.fst ∧ (rest.map Prod.fst).Nodup := by
              rw [List.map_cons] at hnd; exact List.nodup_cons.mp hnd
            have hrest : alookup rest k = some v := by
              simpa [alookup, hk] using h
            rw [mergeDict_cons, ih _ hnd'.2 hrest,
              alookup_dset_ne _ _ _ _ (fun he => hk he.symm)]

end Pygerrit2

namespace Pygerrit2

/-- C4: for every response whose status code is 4xx/5xx, `_decode_response`
raises `requests.HTTPError` — before any JSON parsing, whatever the body or
content-type (the result is the same for every parser) — and that error is
distinct from `ValueError`. -/
theorem decode_raises_on_http_error {J : Type} (parse : String → Option J)
    (r : HttpResponse) (h4 : 400 ≤ r.status) (h6 : r.status < 600) :
    decodeResponse parse r = Except.error (DecodeErr.httpError r.status)
      ∧ DecodeErr.httpError r.status ≠ DecodeErr.valueError := by
  constructor
  · simp [decodeResponse, h4, h6]
  · intro h
    exact DecodeErr.noConfusion h

theorem decode_raises_on_http_error_witness :
    (400 ≤ 404 ∧ 404 < 600)
      ∧ decodeResponse (fun _ => some (0 : Nat)) ⟨"[1]", 404, "application/json"⟩
          = Except.error (DecodeErr.httpError 404)
      ∧ DecodeErr.httpError 404 ≠ DecodeErr.valueError :=
  ⟨⟨by decide, by decide⟩,
    decode_raises_on_http_error (fun _ => some (0 : Nat))
      ⟨"[1]", 404, "application/json"⟩ (by decide) (by decide)⟩

/-- C5: `_merge_dict` merges recursively at keys where both sides hold a
dict, otherwise the override value replaces the base value; keys absent
from the override are untouched; and the two concrete examples from the
spec hold. -/
theorem merge_dict_characterization :
    (∀ (res ov : PyDict) (k : String) (d1 d2 : List (String × PyVal)),
        (ov.map Prod.fst).Nodup →
        alookup res k = some (PyVal.dict d1) →
        alookup ov k = some (PyVal.dict d2) →
        alookup (mergeDict res ov) k = some (PyVal.dict (mergeDict d1 d2)))
    ∧ (∀ (res ov : PyDict) (k : String) (v : PyVal),
        (ov.map Prod.fst).Nodup →
        alookup ov k = some v →
        (∀ d1 d2, alookup res k = some (PyVal.dict d1) → v ≠ PyVal.dict d2) →
        alookup (mergeDict res ov) k = some v)
    ∧ (∀ (res ov : PyDict) (k : String),
        alookup ov k = Option.none →
        alookup (mergeDict res ov) k = alookup res k)
    ∧ mergeDict [("a", PyVal.dict [("x", PyVal.int 1)])] [("a", PyVal.dict [("y", PyVal.int 2)])]
        = [("a", PyVal.dict [("x", PyVal.int 1), ("y", PyVal.int 2)])]
    ∧ mergeDict [("a", PyVal.int 1)] [("a", PyVal.dict [("y", PyVal.int 2)])]
        = [("a", PyVal.dict [("y", PyVal.int 2)])] := by
  refine ⟨?_, ?_, ?_, ?_, ?_⟩
  · intro res ov k d1 d2 hnd h1 h2
    rw [alookup_mergeDict_of_some res ov k _ hnd h2]
    simp [mergeVal, h1]
  · intro res ov k v hnd h2 hnc
    rw [alookup_mergeDict_of_some res ov k _ hnd h2]
    cases v with
    | dict d2 =>
        cases ho : alookup res k with
        | none => simp [mergeVal, ho]
        | some w =>
            cases w with
            | dict d1 => exact absurd rfl (hnc d1 d2 ho)
            | list l => simp [mergeVal, ho]
            | str s => simp [mergeVal, ho]
            | int n => simp [mergeVal, ho]
            | bool b => simp [mergeVal, ho]
            | none => simp [mergeVal, ho]
            | obj o => simp [mergeVal, ho]
    | list l => simp [mergeVal]
    | str s => simp [mergeVal]
    | int n => simp [mergeVal]
    | bool b => simp [mergeVal]
    | none => simp [mergeVal]
    | obj o => simp [mergeVal]
  · exact fun res ov k h => alookup_mergeDict_of_none res ov k h
  · simp [mergeDict, dictAt, alookup, dset]
  · simp [mergeDict, dictAt, alookup, dset]

theorem merge_dict_characterization_witness :
    alookup (mergeDict [("a", PyVal.dict [("x", PyVal.int 1)])]
        [("a", PyVal.dict [("y", PyVal.int 2)])]) "a"
      = some (PyVal.dict (mergeDict [("x", PyVal.int 1)] [("y", PyVal.int 2)])) :=
  merge_dict_characterization.1 _ _ "a" _ _ (by simp) (by simp [alookup]) (by simp [alookup])

/-- C10: a comment dict with a `message` key but neither `line` nor `range`
is silently skipped by `add_comments` (the `else: continue` branch): the
review, in particular its comment mapping, is returned unchanged, with no
error raised. -/
theorem add_comments_skips_message_only (r : GerritReviewM) (cd : PyDict) (m : PyVal)
    (hm : alookup cd "message" = some m)
    (hr : alookup cd "range" = Option.none)
    (hl : alookup cd "line" = Option.none) :
    addComments r [PyVal.dict cd] = Except.ok r := by
  simp [addComments, addOneComment, hm, hr, hl]

theorem add_comments_skips_message_only_witness :
    addComments ⟨"", [], []⟩
        [PyVal.dict [("filename", PyVal.str "f"), ("message", PyVal.str "hi")]]
      = Except.ok ⟨"", [], []⟩ :=
  add_comments_skips_message_only ⟨"", [], []⟩ _ (PyVal.str "hi")
    (by simp [alookup]) (by simp [alookup]) (by simp [alookup])

/-- C2: `review(change_id, revision, review)` posts
`data = str(review)` (the JSON serialization of the review) to
`changes/{change_id}/revisions/{revision}/review` and returns `None`,
discarding the decoded response.  (In the source as it stands, `str(review)`
would in fact raise `NameError`: `GerritReview.__str__` calls `json.dumps`
but the model module never imports `json`; this theorem states the
behaviour of the call the code names.) -/
theorem review_posts_serialized_review (change_id revision : String) (r : GerritReviewM) :
    reviewDispatch change_id revision r
      = { endpoint := "changes/" ++ change_id ++ "/revisions/" ++ revision ++ "/review"
          postKwargs := [("data", PyVal.str (gerritReviewStr r))]
          result := PyVal.none } := rfl


theorem mergeVal_of_ne_dict (old : Option PyVal) (v : PyVal)
    (h : ∀ d, v ≠ PyVal.dict d) : mergeVal old v = v := by
  cases v with
  | dict d => exact absurd rfl (h d)
  | list l => rfl
  | str s => rfl
  | int n => rfl
  | bool b => rfl
  | none => rfl
  | obj o => rfl

theorem mergeVal_none (v : PyVal) : mergeVal Option.none v = v := by
  cases v <;> rfl

/-- C1, counterexample to the claim as stated: for the verb `get`, a
caller-supplied option does *not* take precedence — `get` runs
`kwargs.update(self.kwargs.copy())`, so with client default `verify=True`
and caller option `verify=False`, the dispatched options carry
`verify=True`, not the caller value. -/
theorem get_dispatch_counterexample :
    alookup (getDispatch PyVal.none true [("verify", PyVal.bool false)]) "verify"
        = some (PyVal.bool true)
      ∧ ¬ alookup (getDispatch PyVal.none true [("verify", PyVal.bool false)]) "verify"
          = some (PyVal.bool false) := by
  have h1 : alookup (getDispatch PyVal.none true [("verify", PyVal.bool false)]) "verify"
      = some (PyVal.bool true) := rfl
  refine ⟨h1, fun h => ?_⟩
  rw [h1] at h
  simp at h

/-- C1 (amended): for `put`, `post` and `delete` the dispatched options are
the client defaults with the caller options merged over them, so a
caller-supplied key takes precedence (stated for keys whose caller value is
not a dict; dict values are deep-merged with caller precedence per nested
key); for `get` the client defaults are copied *over* the caller options,
so the defaults win at their keys and only non-default keys pass through. -/
theorem dispatch_merge_precedence :
    (∀ (auth : PyVal) (verify : Bool) (kwargs : PyDict) (k : String) (v : PyVal),
        (kwargs.map Prod.fst).Nodup →
        alookup kwargs k = some v →
        (∀ d, v ≠ PyVal.dict d) →
        alookup (putDispatch auth verify kwargs) k = some v
          ∧ alookup (postDispatch auth verify kwargs) k = some v
          ∧ alookup (deleteDispatch auth verify kwargs) k = some v)
    ∧ (∀ (auth : PyVal) (verify : Bool) (kwargs : PyDict) (k : String) (w : PyVal),
        alookup (defaultKwargs auth verify) k = some w →
        alookup (getDispatch auth verify kwargs) k = some w)
    ∧ (∀ (auth : PyVal) (verify : Bool) (kwargs : PyDict) (k : String),
        alookup (defaultKwargs auth verify) k = Option.none →
        alookup (getDispatch auth verify kwargs) k = alookup kwargs k) := by
  refine ⟨?_, ?_, ?_⟩
  · intro auth verify kwargs k v hnd hv hnc
    refine ⟨?_, ?_, ?_⟩ <;>
      simp only [putDispatch, postDispatch, deleteDispatch] <;>
      rw [alookup_mergeDict_of_some _ _ _ _ hnd hv, mergeVal_of_ne_dict _ _ hnc]
  · intro auth verify kwargs k w hw
    have hnd : ((defaultKwargs auth verify).map Prod.fst).Nodup := by
      simp [defaultKwargs]
    exact alookup_pyUpdate_of_some _ _ _ _ hnd hw
  · intro auth verify kwargs k hk
    exact alookup_pyUpdate_of_none _ _ _ hk

theorem dispatch_merge_precedence_witness :
    alookup (putDispatch PyVal.none true [("data", PyVal.str "x")]) "data"
        = some (PyVal.str "x")
      ∧ alookup (postDispatch PyVal.none true [("data", PyVal.str "x")]) "data"
          = some (PyVal.str "x")
      ∧ alookup (deleteDispatch PyVal.none true [("data", PyVal.str "x")]) "data"
          = some (PyVal.str "x") :=
  dispatch_merge_precedence.1 PyVal.none true [("data", PyVal.str "x")] "data"
    (PyVal.str "x") (by simp) (by simp [alookup]) (fun d h => PyVal.noConfusion h)


theorem pyRstripSlash_eq_self (url : String) (h : pyEndsWith url "/" = false) :
    pyRstripSlash url = url := by
  obtain ⟨d⟩ := url
  have h' : List.isPrefixOf ['/'] d.reverse = false := h
  show String.mk ((d.reverse.dropWhile (fun c => c == '/')).reverse) = String.mk d
  cases hrev : d.reverse with
  | nil =>
      have hd : d = [] := by simpa using congrArg List.reverse hrev
      subst hd
      rfl
  | cons c t =>
      rw [hrev] at h'
      have hc : ¬ ('/' = c) := by simpa [List.isPrefixOf] using h'
      have hc' : (c == '/') = false := by
        rw [beq_eq_false_iff_ne]
        exact fun he => hc he.symm
      have hcn : ¬ ((fun x => x == '/') c = true) := by simp [hc']
      have hd : d = (c :: t).reverse := by simpa using congrArg List.reverse hrev
      have hstep : List.dropWhile (fun x => x == '/') (c :: t) = c :: t :=
        List.dropWhile_cons_of_neg hcn
      rw [hstep, ← hd]

theorem pyEndsWith_append_slash_a (s : String) :
    pyEndsWith (s ++ GERRIT_AUTH_SUFFIX) "/" = false := by
  show List.isPrefixOf ['/'] ((s ++ GERRIT_AUTH_SUFFIX).data.reverse) = false
  rw [String.data_append]
  show List.isPrefixOf ['/'] ((s.data ++ ['/', 'a']).reverse) = false
  rw [List.reverse_append]
  show List.isPrefixOf ['/'] ('a' :: '/' :: s.data.reverse) = false
  simp [List.isPrefixOf]

/-- C6, counterexample to the claim as stated: for a URL that already ends
in `/a` and no auth handle, the stored base URL is *not* the input URL with
a trailing slash appended — `__init__` strips the `/a` suffix first. -/
theorem init_url_counterexample :
    initUrl "http://h/a" false = "http://h/"
      ∧ ¬ initUrl "http://h/a" false = "http://h/a" ++ "/" := by
  have h1 : initUrl "http://h/a" false = "http://h/" := by decide
  refine ⟨h1, fun h => ?_⟩
  rw [h1] at h
  exact absurd h (by decide)

/-- C6 (amended): for every URL without a trailing slash — with an auth
handle, the stored base URL is the URL with `/a` appended (unless already
present) followed by exactly one trailing slash; without an auth handle, it
is the URL with the `/a` suffix first removed if present, then exactly one
trailing slash appended unless the result already ends with one. -/
theorem init_url_characterization (url : String) (h : pyEndsWith url "/" = false) :
    initUrl url true
        = (if pyEndsWith url GERRIT_AUTH_SUFFIX then url else url ++ GERRIT_AUTH_SUFFIX) ++ "/"
      ∧ initUrl url false
        = (let b := if pyEndsWith url GERRIT_AUTH_SUFFIX then pyDropRight url 2 else url
           if pyEndsWith b "/" then b else b ++ "/") := by
  have hr : pyRstripSlash url = url := pyRstripSlash_eq_self url h
  constructor
  · cases hau : pyEndsWith url GERRIT_AUTH_SUFFIX with
    | true => simp [initUrl, hr, hau, h]
    | false => simp [initUrl, hr, hau, h, pyEndsWith_append_slash_a]
  · simp [initUrl, hr]

theorem init_url_characterization_witness :
    pyEndsWith "http://h" "/" = false
      ∧ (initUrl "http://h" true
            = (if pyEndsWith "http://h" GERRIT_AUTH_SUFFIX then "http://h"
               else "http://h" ++ GERRIT_AUTH_SUFFIX) ++ "/"
          ∧ initUrl "http://h" false
            = (let b := if pyEndsWith "http://h" GERRIT_AUTH_SUFFIX
                        then pyDropRight "http://h" 2 else "http://h"
               if pyEndsWith b "/" then b else b ++ "/")) :=
  ⟨by decide, init_url_characterization "http://h" (by decide)⟩


theorem merged_ct_defaults (auth : PyVal) (verify : Bool) :
    mergeDict (mergeDict [] ctInject) (defaultKwargs auth verify)
      = [("headers", PyVal.dict
            [("Content-Type", PyVal.str "application/json;charset=UTF-8"),
             ("Accept", PyVal.str "application/json"),
             ("Accept-Encoding", PyVal.str "gzip")]),
         ("auth", auth), ("verify", PyVal.bool verify)] := by
  cases auth <;>
    simp [mergeDict, ctInject, defaultKwargs, defaultHeaders, dictAt, alookup, dset]

theorem hasBodyKey_of_structured (kwargs : PyDict)
    (h : hasStructuredBody kwargs = true) : hasBodyKey kwargs = true := by
  simp only [hasStructuredBody, Bool.or_eq_true] at h
  simp only [hasBodyKey, Bool.or_eq_true]
  cases h with
  | inl h1 =>
      left
      cases hd : alookup kwargs "data" with
      | none => rw [hd] at h1; simp at h1
      | some v => simp [hd]
  | inr h2 => exact Or.inr h2

theorem pipeline_headers (auth : PyVal) (verify : Bool) (kwargs : PyDict)
    (hnd : (kwargs.map Prod.fst).Nodup)
    (hh : ∀ v, alookup kwargs "headers" = some v →
        ∃ hd, v = PyVal.dict hd
          ∧ alookup hd "Content-Type" = Option.none
          ∧ alookup hd "Accept" = Option.none
          ∧ alookup hd "Accept-Encoding" = Option.none) :
    dispatchHeadersOk
      (mergeDict (mergeDict (mergeDict [] ctInject) (defaultKwargs auth verify)) kwargs) := by
  rw [merged_ct_defaults]
  cases hk : alookup kwargs "headers" with
  | none =>
      refine ⟨[("Content-Type", PyVal.str "application/json;charset=UTF-8"),
               ("Accept", PyVal.str "application/json"),
               ("Accept-Encoding", PyVal.str "gzip")], ?_, ?_, ?_, ?_⟩
      · rw [alookup_mergeDict_of_none _ _ _ hk]
        simp [alookup]
      · simp [alookup]
      · simp [alookup]
      · simp [alookup]
  | some v =>
      obtain ⟨hd, rfl, hct, hac, hae⟩ := hh v hk
      refine ⟨mergeDict
          [("Content-Type", PyVal.str "application/json;charset=UTF-8"),
           ("Accept", PyVal.str "application/json"),
           ("Accept-Encoding", PyVal.str "gzip")] hd, ?_, ?_, ?_, ?_⟩
      · rw [alookup_mergeDict_of_some _ _ _ _ hnd hk]
        simp [mergeVal, alookup]
      · rw [alookup_mergeDict_of_none _ _ _ hct]
        simp [alookup]
      · rw [alookup_mergeDict_of_none _ _ _ hac]
        simp [alookup]
      · rw [alookup_mergeDict_of_none _ _ _ hae]
        simp [alookup]

/-- C7: for `put`, `post` and `delete`, whenever the caller supplies a
structured body (a dict under `data`, or any `json` keyword), the
dispatched headers carry `Content-Type: application/json;charset=UTF-8`
and still carry the default `Accept: application/json` and
`Accept-Encoding: gzip` headers (stated for callers whose own `headers`
option, if any, is a dict not overriding those three keys — otherwise the
caller wins, which is the contract of the merge). -/
theorem structured_body_content_type (auth : PyVal) (verify : Bool) (kwargs : PyDict)
    (hnd : (kwargs.map Prod.fst).Nodup)
    (hs : hasStructuredBody kwargs = true)
    (hh : ∀ v, alookup kwargs "headers" = some v →
        ∃ hd, v = PyVal.dict hd
          ∧ alookup hd "Content-Type" = Option.none
          ∧ alookup hd "Accept" = Option.none
          ∧ alookup hd "Accept-Encoding" = Option.none) :
    dispatchHeadersOk (putDispatch auth verify kwargs)
      ∧ dispatchHeadersOk (postDispatch auth verify kwargs)
      ∧ dispatchHeadersOk (deleteDispatch auth verify kwargs) := by
  have hb : hasBodyKey kwargs = true := hasBodyKey_of_structured kwargs hs
  have hp := pipeline_headers auth verify kwargs hnd hh
  refine ⟨?_, ?_, ?_⟩ <;>
    simp only [putDispatch, postDispatch, deleteDispatch, hs, hb, if_true] <;>
    exact hp

theorem structured_body_content_type_witness :
    dispatchHeadersOk (putDispatch PyVal.none true [("json", PyVal.dict [])])
      ∧ dispatchHeadersOk (postDispatch PyVal.none true [("json", PyVal.dict [])])
      ∧ dispatchHeadersOk (deleteDispatch PyVal.none true [("json", PyVal.dict [])]) :=
  structured_body_content_type PyVal.none true [("json", PyVal.dict [])]
    (by simp) (by rfl) (fun v h => by simp [alookup] at h)


theorem lstripL_cons_not_space (c : Char) (l : List Char) (h : pyIsSpace c = false) :
    lstripL (c :: l) = c :: l := by
  simp [lstripL, List.dropWhile_cons, h]

theorem rstripL_append_of_ne_nil (m l : List Char) (h : rstripL l ≠ []) :
    rstripL (m ++ l) = m ++ rstripL l := by
  unfold rstripL at *
  rw [List.reverse_append, List.dropWhile_append]
  have hne : (l.reverse.dropWhile pyIsSpace).isEmpty = false := by
    cases hdw : l.reverse.dropWhile pyIsSpace with
    | nil => exact absurd (by rw [hdw]; rfl) h
    | cons a t => rfl
  rw [hne]
  simp

theorem rstripL_idem (l : List Char) : rstripL (rstripL l) = rstripL l := by
  unfold rstripL
  rw [List.reverse_reverse, List.dropWhile_idempotent]

theorem pyStrip_rstripL (b : String) :
    pyStrip (String.mk (rstripL b.data)) = pyStrip b := by
  show String.mk (lstripL (rstripL (rstripL b.data))) = String.mk (lstripL (rstripL b.data))
  rw [rstripL_idem]

theorem rstripL_ne_nil_of_strip_ne_empty (b : String) (h : pyStrip b ≠ "") :
    rstripL b.data ≠ [] := by
  intro hnil
  apply h
  show String.mk (lstripL (rstripL b.data)) = ""
  rw [hnil]
  rfl

theorem pyStrip_magic_append (b : String) (h : rstripL b.data ≠ []) :
    pyStrip (GERRIT_MAGIC_JSON ++ b) = String.mk (GERRIT_MAGIC_JSON.data ++ rstripL b.data) := by
  show String.mk (lstripL (rstripL ((GERRIT_MAGIC_JSON ++ b).data))) = _
  rw [String.data_append, rstripL_append_of_ne_nil _ _ h]
  have hl : lstripL (GERRIT_MAGIC_JSON.data ++ rstripL b.data)
      = GERRIT_MAGIC_JSON.data ++ rstripL b.data :=
    lstripL_cons_not_space ')' (GERRIT_MAGIC_JSON.data.tail ++ rstripL b.data) (by rfl)
  rw [hl]

/-- C3: for a successful (2xx) JSON-content-type response over a valid JSON
body `b` (validity entering as: the parser accepts `b`, ignores surrounding
whitespace, and the stripped form of `b` is non-empty and does not itself start
with the magic prefix — all true of `json.loads` on valid JSON), decoding
the response whose body is the 5-character magic prefix followed by `b`
yields exactly the same structure as decoding the response with body `b`
alone: both produce the parse of `b`. -/
theorem decode_magic_seq_invariance {J : Type} (parse : String → Option J)
    (b : String) (j : J) (status : Nat) (ct : String)
    (hparse : ∀ s, parse (pyStrip s) = parse s)
    (hs2 : 200 ≤ status) (hs3 : status < 300)
    (hct : ctMain ct = "application/json")
    (hne : pyStrip b ≠ "")
    (hmag : pyStartsWith (pyStrip b) GERRIT_MAGIC_JSON = false)
    (hvalid : parse b = some j) :
    decodeResponse parse ⟨GERRIT_MAGIC_JSON ++ b, status, ct⟩ = Except.ok (Decoded.json j)
      ∧ decodeResponse parse ⟨b, status, ct⟩ = Except.ok (Decoded.json j) := by
  have hnot : ¬ (400 ≤ status ∧ status < 600) := by omega
  have hb : rstripL b.data ≠ [] := rstripL_ne_nil_of_strip_ne_empty b hne
  constructor
  · have hsplit := pyStrip_magic_append b hb
    have hpre : pyStartsWith (String.mk (GERRIT_MAGIC_JSON.data ++ rstripL b.data))
        GERRIT_MAGIC_JSON = true := by
      simp [pyStartsWith]
    have hdrop : pyDrop (String.mk (GERRIT_MAGIC_JSON.data ++ rstripL b.data))
        GERRIT_MAGIC_JSON.length = String.mk (rstripL b.data) := by
      show String.mk ((GERRIT_MAGIC_JSON.data ++ rstripL b.data).drop
          GERRIT_MAGIC_JSON.data.length) = _
      rw [List.drop_left]
    have hpv : parse (String.mk (rstripL b.data)) = some j := by
      have h1 := hparse (String.mk (rstripL b.data))
      rw [pyStrip_rstripL] at h1
      rw [← h1, hparse, hvalid]
    simp [decodeResponse, hnot, hct, hsplit, hpre, hdrop, hpv]
  · simp [decodeResponse, hnot, hct, hmag, hparse, hvalid]

theorem decode_magic_seq_invariance_witness :
    decodeResponse (fun _ => some 7) ⟨GERRIT_MAGIC_JSON ++ "[1]", 200, "application/json"⟩
        = Except.ok (Decoded.json 7)
      ∧ decodeResponse (fun _ => some 7) ⟨"[1]", 200, "application/json"⟩
        = Except.ok (Decoded.json 7) :=
  decode_magic_seq_invariance (fun _ => some 7) "[1]" 7 200 "application/json"
    (fun _ => rfl) (by decide) (by decide) (by decide)
    (by decide) (by decide) rfl


theorem commentsWF_nil : commentsWF [] := by
  intro k v hv
  simp [alookup] at hv

theorem commentsWF_dset (cm : PyDict) (k : String) (l : List PyVal)
    (hwf : commentsWF cm) : commentsWF (dset cm k (PyVal.list l)) := by
  intro k' v hv
  by_cases hk : k' = k
  · subst hk
    rw [alookup_dset_self] at hv
    exact ⟨l, (Option.some.inj hv).symm⟩
  · rw [alookup_dset_ne _ _ _ _ hk] at hv
    exact hwf k' v hv

theorem commentsWF_storeComment (r : GerritReviewM) (cd : PyDict) (msg : PyVal)
    (r' : GerritReviewM) (hwf : commentsWF r.comments)
    (h : storeComment r cd msg = Except.ok r') : commentsWF r'.comments := by
  unfold storeComment at h
  split at h
  · exact absurd h (by simp)
  · split at h
    · rw [← Except.ok.inj h]
      exact commentsWF_dset _ _ _ hwf
    · split at h
      · rw [← Except.ok.inj h]
        exact commentsWF_dset _ _ _ hwf
      · exact absurd h (by simp)
      · rw [← Except.ok.inj h]
        exact commentsWF_dset _ _ _ hwf
  · exact absurd h (by simp)

theorem commentsWF_addOneComment (r : GerritReviewM) (c : PyVal) (r' : GerritReviewM)
    (hwf : commentsWF r.comments) (h : addOneComment r c = Except.ok r') :
    commentsWF r'.comments := by
  unfold addOneComment at h
  split at h
  · rename_i cd
    split at h
    · rw [← Except.ok.inj h]; exact hwf
    · split at h
      · exact commentsWF_storeComment _ _ _ _ hwf h
      · split at h
        · exact commentsWF_storeComment _ _ _ _ hwf h
        · rw [← Except.ok.inj h]; exact hwf
  · exact absurd h (by simp)

theorem commentsWF_addComments (r : GerritReviewM) (cs : List PyVal) (r' : GerritReviewM)
    (hwf : commentsWF r.comments) (h : addComments r cs = Except.ok r') :
    commentsWF r'.comments := by
  induction cs generalizing r with
  | nil =>
      rw [← Except.ok.inj h]
      exact hwf
  | cons c rest ih =>
      unfold addComments at h
      split at h
      · rename_i r1 h1
        exact ih r1 (commentsWF_addOneComment r c r1 hwf h1) h
      · exact absurd h (by simp)

theorem storeComment_appends (r : GerritReviewM) (cd : PyDict) (msg : PyVal)
    (p : String) (l0 : List PyVal)
    (hf : alookup cd "filename" = some (PyVal.str p))
    (hprev : alookup r.comments p = some (PyVal.list l0)
      ∨ (alookup r.comments p = Option.none ∧ l0 = [])) :
    storeComment r cd msg
      = Except.ok { r with comments := dset r.comments p (PyVal.list (l0 ++ [msg])) } := by
  unfold storeComment
  simp only [hf]
  by_cases he : List.isEmpty r.comments = true
  · have hnil : r.comments = [] := by
      cases hcm : r.comments with
      | nil => rfl
      | cons a t => rw [hcm] at he; simp [List.isEmpty] at he
    cases hprev with
    | inl hc => rw [hnil] at hc; simp [alookup] at hc
    | inr hc =>
        rw [if_pos he, hc.2]
        simp
  · rw [if_neg he]
    cases hprev with
    | inl hc => simp only [hc]
    | inr hc =>
        simp only [hc.1, hc.2]
        simp

theorem addOneComment_appends (r : GerritReviewM) (cd : PyDict) (m : PyVal)
    (p : String) (l0 : List PyVal)
    (hm : builtMsg cd = some m)
    (hf : alookup cd "filename" = some (PyVal.str p))
    (hprev : alookup r.comments p = some (PyVal.list l0)
      ∨ (alookup r.comments p = Option.none ∧ l0 = [])) :
    addOneComment r (PyVal.dict cd)
      = Except.ok { r with comments := dset r.comments p (PyVal.list (l0 ++ [m])) } := by
  unfold builtMsg at hm
  cases hmsg : alookup cd "message" with
  | none =>
      simp only [hmsg] at hm
      exact Option.noConfusion hm
  | some msgv =>
      simp only [hmsg] at hm
      cases hr : alookup cd "range" with
      | some rv =>
          simp only [hr] at hm
          rw [← Option.some.inj hm]
          have heq : addOneComment r (PyVal.dict cd)
              = storeComment r cd (PyVal.dict [("range", rv), ("message", msgv)]) := by
            simp [addOneComment, hmsg, hr]
          rw [heq]
          exact storeComment_appends r cd _ p l0 hf hprev
      | none =>
          simp only [hr] at hm
          cases hl : alookup cd "line" with
          | some lv =>
              simp only [hl] at hm
              rw [← Option.some.inj hm]
              have heq : addOneComment r (PyVal.dict cd)
                  = storeComment r cd (PyVal.dict [("line", lv), ("message", msgv)]) := by
                simp [addOneComment, hmsg, hr, hl]
              rw [heq]
              exact storeComment_appends r cd _ p l0 hf hprev
          | none =>
              simp only [hl] at hm
              exact Option.noConfusion hm

/-- C8: once constructed, the label and comment attributes of a
`GerritReview` are mappings and stay mappings through `set_message`, `add_labels` and
`add_comments` — formalized as: default construction yields the two empty
mappings, every stored comment value is a list and this invariant is
preserved by all three operations (the other two leave the comment mapping
untouched), and two successive point-line or range comments for the same
file path accumulate in order in the list of that path instead of overwriting. -/
theorem review_mappings_invariant :
    (∀ (message : Option String),
        ∃ r, gerritReviewInit message Option.none Option.none = Except.ok r
          ∧ r.labels = [] ∧ r.comments = [])
    ∧ (∀ (message : Option String) (labels comments : Option PyVal) (r : GerritReviewM),
        gerritReviewInit message labels comments = Except.ok r →
        commentsWF r.comments)
    ∧ (∀ (r : GerritReviewM) (m : String),
        (setMessage r m).comments = r.comments ∧ (setMessage r m).labels = r.labels)
    ∧ (∀ (r : GerritReviewM) (ls : PyDict), (addLabels r ls).comments = r.comments)
    ∧ (∀ (r : GerritReviewM) (cs : List PyVal) (r' : GerritReviewM),
        commentsWF r.comments → addComments r cs = Except.ok r' →
        commentsWF r'.comments)
    ∧ (∀ (r : GerritReviewM) (p : String) (cd1 cd2 : PyDict) (m1 m2 : PyVal)
          (l0 : List PyVal),
        builtMsg cd1 = some m1 → builtMsg cd2 = some m2 →
        alookup cd1 "filename" = some (PyVal.str p) →
        alookup cd2 "filename" = some (PyVal.str p) →
        (alookup r.comments p = some (PyVal.list l0)
          ∨ (alookup r.comments p = Option.none ∧ l0 = [])) →
        ∃ r', addComments r [PyVal.dict cd1, PyVal.dict cd2] = Except.ok r'
          ∧ alookup r'.comments p = some (PyVal.list (l0 ++ [m1, m2]))) := by
  refine ⟨?_, ?_, ?_, ?_, ?_, ?_⟩
  · intro message
    exact ⟨⟨initMessage message, [], []⟩, rfl, rfl, rfl⟩
  · intro message labels comments r h
    unfold gerritReviewInit at h
    split at h
    · exact absurd h (by simp)
    · split at h
      · split at h
        · split at h
          · exact commentsWF_addComments _ _ _ commentsWF_nil h
          · exact absurd h (by simp)
        · rw [← Except.ok.inj h]
          exact commentsWF_nil
      · rw [← Except.ok.inj h]
        exact commentsWF_nil
  · exact fun r m => ⟨rfl, rfl⟩
  · exact fun r ls => rfl
  · exact fun r cs r' hwf h => commentsWF_addComments r cs r' hwf h
  · intro r p cd1 cd2 m1 m2 l0 h1 h2 hf1 hf2 hprev
    have hstep1 := addOneComment_appends r cd1 m1 p l0 h1 hf1 hprev
    set r1 : GerritReviewM :=
      { r with comments := dset r.comments p (PyVal.list (l0 ++ [m1])) } with hr1
    have hlook1 : alookup r1.comments p = some (PyVal.list (l0 ++ [m1])) := by
      rw [hr1]
      exact alookup_dset_self _ _ _
    have hstep2 := addOneComment_appends r1 cd2 m2 p (l0 ++ [m1]) h2 hf2 (Or.inl hlook1)
    refine ⟨{ r1 with comments := dset r1.comments p (PyVal.list ((l0 ++ [m1]) ++ [m2])) },
      ?_, ?_⟩
    · show (match addOneComment r (PyVal.dict cd1) with
        | Except.ok r' => addComments r' [PyVal.dict cd2]
        | Except.error e => Except.error e) = _
      rw [hstep1]
      show (match addOneComment r1 (PyVal.dict cd2) with
        | Except.ok r' => addComments r' []
        | Except.error e => Except.error e) = _
      rw [hstep2]
      rfl
    · show alookup (dset r1.comments p (PyVal.list ((l0 ++ [m1]) ++ [m2]))) p = _
      rw [alookup_dset_self]
      simp

theorem review_mappings_invariant_witness :
    ∃ r, addComments ⟨"", [], []⟩
        [PyVal.dict [("filename", PyVal.str "Makefile"), ("line", PyVal.int 10),
            ("message", PyVal.str "a")],
         PyVal.dict [("filename", PyVal.str "Makefile"),
            ("range", PyVal.dict [("start_line", PyVal.int 0)]),
            ("message", PyVal.str "b")]] = Except.ok r
      ∧ alookup r.comments "Makefile"
          = some (PyVal.list ([]
              ++ [PyVal.dict [("line", PyVal.int 10), ("message", PyVal.str "a")],
                  PyVal.dict [("range", PyVal.dict [("start_line", PyVal.int 0)]),
                    ("message", PyVal.str "b")]])) :=
  review_mappings_invariant.2.2.2.2.2 ⟨"", [], []⟩ "Makefile" _ _ _ _ []
    (by rfl) (by rfl) (by rfl) (by rfl) (Or.inr ⟨rfl, rfl⟩)


theorem mem_aeraseKey {α : Type} (l : List (String × α)) (key : String) (kv : String × α)
    (h : kv ∈ aeraseKey l key) : kv ∈ l := by
  induction l with
  | nil => simp [aeraseKey] at h
  | cons kv0 rest ih =>
      cases kv0 with
      | mk k0 v0 =>
          by_cases hk : k0 = key
          · simp only [aeraseKey] at h
            rw [if_pos hk] at h
            exact List.mem_cons_of_mem _ h
          · simp only [aeraseKey] at h
            rw [if_neg hk] at h
            rcases List.mem_cons.mp h with h1 | h2
            · exact h1 ▸ List.mem_cons_self _ _
            · exact List.mem_cons_of_mem _ (ih h2)

theorem aeraseKey_not_mem {α : Type} (l : List (String × α)) (key : String)
    (hnd : (l.map Prod.fst).Nodup) : key ∉ (aeraseKey l key).map Prod.fst := by
  induction l with
  | nil => simp [aeraseKey]
  | cons kv rest ih =>
      cases kv with
      | mk k0 v0 =>
          have hnd' : k0 ∉ rest.map Prod.fst ∧ (rest.map Prod.fst).Nodup := by
            rw [List.map_cons] at hnd; exact List.nodup_cons.mp hnd
          by_cases hk : k0 = key
          · simp only [aeraseKey]
            rw [if_pos hk]
            subst hk
            exact hnd'.1
          · simp only [aeraseKey]
            rw [if_neg hk, List.map_cons]
            intro hmem
            rcases List.mem_cons.mp hmem with h1 | h2
            · exact hk h1.symm
            · exact ih hnd'.2 h2

theorem queryParts_eq_strFilters (kws : List (String × QVal))
    (h : ∀ kv ∈ kws, ∃ x, kv.2 = QVal.s x) :
    queryParts kws = some (strFilters kws) := by
  induction kws with
  | nil => rfl
  | cons kv rest ih =>
      obtain ⟨x, hx⟩ := h kv (List.mem_cons_self _ _)
      cases kv with
      | mk k v =>
          have hx' : v = QVal.s x := hx
          subst hx'
          have ih' := ih (fun kv hm => h kv (List.mem_cons_of_mem _ hm))
          by_cases hxe : x = ""
          · simp [queryParts, strFilters, List.filterMap_cons, hxe, ih']
          · simp [queryParts, strFilters, List.filterMap_cons, hxe, ih']

/-- C9: `query_changes` uses the default result-detail options
`CURRENT_REVISION, CURRENT_COMMIT, CURRENT_FILES` unless the caller passes
an `options` keyword — which is then used instead and popped out of the
filters — builds one space-joined query string out of exactly the non-empty
filter `k:v` pairs (spaces in values turned into `+`), issues one GET on the
encoded `/changes/?` endpoint and wraps each returned object as a `Change`.
(Stated for keyword sets whose non-`options` values are strings, as the
Python call contract requires.) -/
theorem query_changes_spec
    (encq : List (String × QVal) → String) (getRes : String → List PyDict)
    (kwargs : List (String × QVal))
    (hnd : (kwargs.map Prod.fst).Nodup)
    (hstr : ∀ kv ∈ kwargs, kv.1 ≠ "options" → ∃ x, kv.2 = QVal.s x) :
    (alookup kwargs "options" = Option.none →
        queryChanges encq getRes kwargs
          = some ((getRes ("/changes/?" ++ encq
              [("o", QVal.ls defaultOptions),
               ("q", QVal.s (String.intercalate " " (strFilters kwargs)))])).map
              mkGerritChange))
      ∧ (∀ ov, alookup kwargs "options" = some ov →
          queryChanges encq getRes kwargs
            = some ((getRes ("/changes/?" ++ encq
                [("o", ov),
                 ("q", QVal.s (String.intercalate " "
                    (strFilters (aeraseKey kwargs "options"))))])).map
                mkGerritChange)) := by
  constructor
  · intro hopt
    have hall : ∀ kv ∈ kwargs, ∃ x, kv.2 = QVal.s x := by
      intro kv hm
      apply hstr kv hm
      intro heq
      exact (alookup_eq_none_iff kwargs "options").mp hopt
        (heq ▸ List.mem_map_of_mem Prod.fst hm)
    have hq := queryParts_eq_strFilters kwargs hall
    unfold queryChanges
    simp only [hopt, hq]
  · intro ov hopt
    have hall : ∀ kv ∈ aeraseKey kwargs "options", ∃ x, kv.2 = QVal.s x := by
      intro kv hm
      apply hstr kv (mem_aeraseKey _ _ _ hm)
      intro heq
      have hmem : kv.1 ∈ (aeraseKey kwargs "options").map Prod.fst :=
        List.mem_map_of_mem Prod.fst hm
      rw [heq] at hmem
      exact aeraseKey_not_mem kwargs "options" hnd hmem
    have hq := queryParts_eq_strFilters _ hall
    unfold queryChanges
    simp only [hopt, hq]

theorem query_changes_spec_witness :
    queryChanges (fun _ => "E") (fun _ => ([] : List PyDict)) [("project", QVal.s "p")]
      = some ([] : List GerritChangeM) :=
  (query_changes_spec (fun _ => "E") (fun _ => ([] : List PyDict))
      [("project", QVal.s "p")] (by simp)
      (fun kv hm hne => by
        simp at hm
        exact ⟨"p", by rw [hm]⟩)).1 (by simp [alookup])

end Pygerrit2
